import Mathlib

set_option maxRecDepth 10000

/-!
Shallow embedding of the dht-hal DHT11/DHT22 driver
(src/dht-hal/src/lib.rs and src/dht-hal/src/kind.rs).

Bytes (u8) and 16-bit sums (u16) are modelled as `Nat` with an explicit
`% 256` wherever u8 wrap-around matters.  The `f32` values produced by the
variant conversion functions are modelled as exact rationals (`ℚ`); every
concrete value claimed by the specification is exactly representable.

The driver's interaction with its pin collaborator is modelled by an
environment `env : Nat → Except E Bool` giving the outcome of the driver's
n-th pin access (a level for reads; an `Except.error` models a pin IO
failure), together with an explicit state carrying the access counter and an
event log that records every pin write, pin read and delay the driver
performs, plus a marker event for the invocation of the frame decoder.
-/

/-- One transmitted bit's pulse pair, from `struct Pulse { lo: u8, hi: u8 }`
(lib.rs:86-90). -/
structure Pulse where
  lo : Nat
  hi : Nat
deriving DecidableEq

/-- A decoded sensor reading, from `struct Reading` (lib.rs:66-74).  The
phantom kind parameter is dropped; the kind is passed explicitly to the
conversion methods below. -/
structure Reading where
  rh_integral : Nat
  rh_decimal : Nat
  t_integral : Nat
  t_decimal : Nat
deriving DecidableEq

/-- The internal error kind, from `enum ErrorKind<I>` (lib.rs:79-84).  The
`Io` variant is named `ioError` here.  As in the source, `expected` is the
first checksum field and `actual` the second. -/
inductive ErrorKind (E : Type) where
  | ioError (e : E)
  | checksum (expected actual : Nat)
  | timeout
deriving DecidableEq

/-- The public error wrapper, from `pub struct Error<I>(ErrorKind<I>)`
(lib.rs:76-77). -/
structure DhtError (E : Type) where
  kind : ErrorKind E
deriving DecidableEq

/-- Classification predicate `Error::is_timeout` (lib.rs:241-246). -/
def DhtError.isTimeoutError {E : Type} (e : DhtError E) : Bool :=
  match e.kind with
  | ErrorKind.timeout => true
  | _ => false

/-- Classification predicate `Error::is_io` (lib.rs:250-255). -/
def DhtError.isIoError {E : Type} (e : DhtError E) : Bool :=
  match e.kind with
  | ErrorKind.ioError _ => true
  | _ => false

/-- Classification predicate `Error::is_checksum` (lib.rs:258-263). -/
def DhtError.isChecksumError {E : Type} (e : DhtError E) : Bool :=
  match e.kind with
  | ErrorKind.checksum _ _ => true
  | _ => false

/-- The variant profile, from `trait DhtKind` (kind.rs:1-10): the start-signal
delay constant and the two byte-pair-to-physical-value conversion functions. -/
structure DhtKind where
  START_DELAY_US : Nat
  temp_celcius : Nat → Nat → ℚ
  humidity_percent : Nat → Nat → ℚ

/-- The DHT11 variant profile, from `impl DhtKind for Dht11` (kind.rs:20-37).
Source: `let mut temp = integral as f32; if decimal & 0x80 != 0 { temp = -1.0
- temp; } temp + (decimal & 0x0f) as f32 * 0.1` and `integral as f32 +
decimal as f32 * 0.1`. -/
def Dht11 : DhtKind where
  START_DELAY_US := 20 * 1000
  temp_celcius := fun integral decimal =>
    let temp : ℚ := (integral : ℚ)
    let temp := if decimal &&& 0x80 ≠ 0 then -1 - temp else temp
    temp + ((decimal &&& 0x0f : Nat) : ℚ) * (0.1 : ℚ)
  humidity_percent := fun integral decimal =>
    (integral : ℚ) + (decimal : ℚ) * (0.1 : ℚ)

/-- The DHT22 variant profile, from `impl DhtKind for Dht22` (kind.rs:39-55).
Source: `let mut temp = (((integral & 0x7F) as u16) << 8 | decimal as u16) as
f32; temp *= 0.1; if integral & 0x80 != 0 { temp *= -1.0; }` and
`((integral as u16) << 8 | decimal as u16) as f32 * 0.1`. -/
def Dht22 : DhtKind where
  START_DELAY_US := 1100
  temp_celcius := fun integral decimal =>
    let temp : ℚ := ((((integral &&& 0x7f) <<< 8) ||| decimal : Nat) : ℚ)
    let temp := temp * (0.1 : ℚ)
    if integral &&& 0x80 ≠ 0 then temp * (-1) else temp
  humidity_percent := fun integral decimal =>
    ((((integral <<< 8) ||| decimal : Nat)) : ℚ) * (0.1 : ℚ)

/-- The Celsius-to-Fahrenheit conversion, from `const fn
celcius_to_fahrenheit` (lib.rs:274-276). -/
def celcius_to_fahrenheit (c : ℚ) : ℚ :=
  c * 1.8 + 32.0

/-- `Reading::temp_celcius` (lib.rs:210-212); the variant is an explicit
argument in place of the phantom type parameter. -/
def Reading.temp_celcius (K : DhtKind) (r : Reading) : ℚ :=
  K.temp_celcius r.t_integral r.t_decimal

/-- `Reading::temp_fahrenheit` (lib.rs:215-217). -/
def Reading.temp_fahrenheit (K : DhtKind) (r : Reading) : ℚ :=
  celcius_to_fahrenheit (Reading.temp_celcius K r)

/-- `Reading::humidity_percent` (lib.rs:220-222). -/
def Reading.humidity_percent (K : DhtKind) (r : Reading) : ℚ :=
  K.humidity_percent r.rh_integral r.rh_decimal

/-- One step of the byte-assembly loop body (lib.rs:181-186): `*byte <<= 1;
if hi > lo { *byte |= 1 }`, on a u8 accumulator. -/
def decodeByteStep (b : Nat) (p : Pulse) : Nat :=
  let b := b * 2 % 256
  if p.hi > p.lo then b ||| 1 else b

/-- Assembly of one byte from its chunk of pulses, the inner loop of
`Reading::from_pulses` (lib.rs:181-186). -/
def decodeByte (chunk : List Pulse) : Nat :=
  chunk.foldl decodeByteStep 0

/-- Fuel-driven implementation of slice `chunks`: the fuel starts at the list
length, which always suffices for a positive chunk size. -/
def chunksOfAux {α : Type} (n : Nat) : Nat → List α → List (List α)
  | 0, _ => []
  | _ + 1, [] => []
  | fuel + 1, p :: rest => ((p :: rest).take n) :: chunksOfAux n fuel ((p :: rest).drop n)

/-- Rust's `slice::chunks(n)`: splits a list into consecutive chunks of `n`
elements (the last chunk may be shorter).  Used by `Reading::from_pulses`
with `n = 8` (lib.rs:177). -/
def chunksOf {α : Type} (n : Nat) (l : List α) : List (List α) :=
  chunksOfAux n l.length l

/-- The indexed byte/checksum accumulation loop of `Reading::from_pulses`
(lib.rs:177-191): for the chunk at index `i` append its assembled byte, and
`if i < 4 { chksum += i as u16 }` — the source adds the chunk *index* `i`,
not the assembled byte value. -/
def assembleBytes : List (List Pulse) → Nat → List Nat → Nat → List Nat × Nat
  | [], _, bytes, chksum => (bytes, chksum)
  | chunk :: rest, i, bytes, chksum =>
    assembleBytes rest (i + 1) (bytes ++ [decodeByte chunk])
      (if i < 4 then chksum + i else chksum)

/-- `Reading::from_pulses` (lib.rs:172-207): assemble 5 bytes from 40 pulses,
compare `chksum as u8` (`actual`) with the transmitted byte `bytes[4]`
(`expected`), and fail with `ErrorKind::Checksum { actual, expected }` on
mismatch. -/
def Reading.from_pulses {E : Type} (pulses : List Pulse) : Except (ErrorKind E) Reading :=
  let r := assembleBytes (chunksOf 8 pulses) 0 [] 0
  let bytes := r.1
  let expected := bytes.getD 4 0
  let actual := r.2 % 256
  if actual ≠ expected then
    Except.error (ErrorKind.checksum expected actual)
  else
    Except.ok ⟨bytes.getD 0 0, bytes.getD 1 0, bytes.getD 2 0, bytes.getD 3 0⟩

/-- The j-th byte assembled by the frame decoder from a pulse array. -/
def byteOf (l : List Pulse) (j : Nat) : Nat :=
  decodeByte ((chunksOf 8 l).getD j [])

/-- Modelled from the spec: the datasheet-correct checksum, "the low byte of
the 16-bit sum of the first four data bytes" (spec §4.4 and the comment at
lib.rs:174-175).  This is what the claims say the decoder compares against;
the code under verification does not compute it. -/
def specChecksum (l : List Pulse) : Nat :=
  (byteOf l 0 + byteOf l 1 + byteOf l 2 + byteOf l 3) % 256

/-- A 40-pulse frame encoding the data bytes 0,0,0,0 with transmitted 5th
byte 6 (bit pattern 00000110 in the last chunk). -/
def c1Pulses : List Pulse :=
  List.replicate 37 ⟨1, 0⟩ ++ [⟨0, 1⟩, ⟨0, 1⟩, ⟨1, 0⟩]

/-- A 40-pulse frame encoding the data bytes 1,0,0,0 with transmitted 5th
byte 0 (only bit 7 of the frame is a 1). -/
def c5Pulses : List Pulse :=
  List.replicate 7 ⟨1, 0⟩ ++ [⟨0, 1⟩] ++ List.replicate 32 ⟨1, 0⟩

/-- Events recording the driver's interactions with its collaborators. -/
inductive Event where
  | setHigh
  | setLow
  | readLevel (b : Bool)
  | readFail
  | delayUs (n : Nat)
  | delayMs (n : Nat)
  | decodeFrame
deriving DecidableEq

/-- Pin writes among the logged events (`set_high` / `set_low`). -/
def isPinWrite (ev : Event) : Bool :=
  match ev with
  | Event.setHigh => true
  | Event.setLow => true
  | _ => false

/-- Driver run state: how many pin accesses have been consumed from the
environment, and the log of performed collaborator interactions. -/
structure DhtState where
  idx : Nat
  log : List Event
deriving DecidableEq

/-- The state at the start of a driver call. -/
def initState : DhtState :=
  ⟨0, []⟩

/-- `OutputPin::set_high` (used at lib.rs:125,132): consumes one environment
cell; an environment error becomes `ErrorKind::Io` via the `?` conversion. -/
def pinSetHigh {E : Type} (env : Nat → Except E Bool) (s : DhtState) :
    Except (ErrorKind E) Unit × DhtState :=
  match env s.idx with
  | Except.ok _ => (Except.ok (), ⟨s.idx + 1, s.log ++ [Event.setHigh]⟩)
  | Except.error e => (Except.error (ErrorKind.ioError e), ⟨s.idx + 1, s.log ++ [Event.setHigh]⟩)

/-- `OutputPin::set_low` (used at lib.rs:129). -/
def pinSetLow {E : Type} (env : Nat → Except E Bool) (s : DhtState) :
    Except (ErrorKind E) Unit × DhtState :=
  match env s.idx with
  | Except.ok _ => (Except.ok (), ⟨s.idx + 1, s.log ++ [Event.setLow]⟩)
  | Except.error e => (Except.error (ErrorKind.ioError e), ⟨s.idx + 1, s.log ++ [Event.setLow]⟩)

/-- `InputPin::is_high` (used at lib.rs:115): reads the current level from
the environment. -/
def pinRead {E : Type} (env : Nat → Except E Bool) (s : DhtState) :
    Except (ErrorKind E) Bool × DhtState :=
  match env s.idx with
  | Except.ok b => (Except.ok b, ⟨s.idx + 1, s.log ++ [Event.readLevel b]⟩)
  | Except.error e => (Except.error (ErrorKind.ioError e), ⟨s.idx + 1, s.log ++ [Event.readFail]⟩)

/-- `DelayUs::delay_us`: infallible, logs the delay. -/
def tickUs (n : Nat) (s : DhtState) : DhtState :=
  ⟨s.idx, s.log ++ [Event.delayUs n]⟩

/-- `DelayMs::delay_ms`: infallible, logs the delay. -/
def tickMs (n : Nat) (s : DhtState) : DhtState :=
  ⟨s.idx, s.log ++ [Event.delayMs n]⟩

/-- Sequencing with early return, the `?` operator on pin results. -/
def andThen {E α β : Type} (r : Except (ErrorKind E) α × DhtState)
    (f : α → DhtState → Except (ErrorKind E) β × DhtState) :
    Except (ErrorKind E) β × DhtState :=
  match r with
  | (Except.error e, s) => (Except.error e, s)
  | (Except.ok a, s) => f a s

/-- The polling loop of `Dht::read_pulse_us` (lib.rs:113-121): `for len in
0..=u8::MAX { if self.pin.is_high()? != high { return Ok(len); }
self.timer.delay_us(1); } Err(ErrorKind::Timeout)`.  The fuel counts the
remaining loop iterations, starting at 256. -/
def readPulseAux {E : Type} (env : Nat → Except E Bool) (high : Bool) :
    Nat → Nat → DhtState → Except (ErrorKind E) Nat × DhtState
  | 0, _, s => (Except.error ErrorKind.timeout, s)
  | fuel + 1, len, s =>
    match pinRead env s with
    | (Except.error e, s1) => (Except.error e, s1)
    | (Except.ok b, s1) =>
      if b ≠ high then (Except.ok len, s1)
      else readPulseAux env high fuel (len + 1) (tickUs 1 s1)

/-- `Dht::read_pulse_us` (lib.rs:113-121). -/
def read_pulse_us {E : Type} (env : Nat → Except E Bool) (high : Bool) (s : DhtState) :
    Except (ErrorKind E) Nat × DhtState :=
  readPulseAux env high 256 0 s

/-- `Dht::start_signal_blocking` (lib.rs:123-140): pin high + 1 ms, pin low +
`START_DELAY_US` µs, pin high + 40 µs, then the two acknowledgement pulse
reads. -/
def start_signal_blocking {E : Type} (K : DhtKind) (env : Nat → Except E Bool) (s : DhtState) :
    Except (ErrorKind E) Unit × DhtState :=
  andThen (pinSetHigh env s) fun _ s =>
  let s := tickMs 1 s
  andThen (pinSetLow env s) fun _ s =>
  let s := tickUs K.START_DELAY_US s
  andThen (pinSetHigh env s) fun _ s =>
  let s := tickUs 40 s
  andThen (read_pulse_us env false s) fun _ s =>
  andThen (read_pulse_us env true s) fun _ s =>
  (Except.ok (), s)

/-- The 40-iteration bit-sampling loop of `Dht::read_blocking`
(lib.rs:158-166): for each pulse, `pulse.lo = self.read_pulse_us(false)?;
pulse.hi = self.read_pulse_us(true)?`. -/
def readPulsesLoop {E : Type} (env : Nat → Except E Bool) :
    Nat → List Pulse → DhtState → Except (ErrorKind E) (List Pulse) × DhtState
  | 0, acc, s => (Except.ok acc, s)
  | n + 1, acc, s =>
    andThen (read_pulse_us env false s) fun lo s =>
    andThen (read_pulse_us env true s) fun hi s =>
    readPulsesLoop env n (acc ++ [⟨lo, hi⟩]) s

/-- `Dht::read_blocking` (lib.rs:145-168): start signal, 40 pulse pairs, then
the frame decoder.  The `Event.decodeFrame` log entry marks the invocation of
`Reading::from_pulses`; internal `ErrorKind` errors are wrapped into the
public `Error` type as the source's `?`/`From` conversions do. -/
def read_blocking {E : Type} (K : DhtKind) (env : Nat → Except E Bool) (s : DhtState) :
    Except (DhtError E) Reading × DhtState :=
  match start_signal_blocking K env s with
  | (Except.error e, s) => (Except.error ⟨e⟩, s)
  | (Except.ok _, s) =>
    match readPulsesLoop env 40 [] s with
    | (Except.error e, s) => (Except.error ⟨e⟩, s)
    | (Except.ok pulses, s) =>
      let s : DhtState := ⟨s.idx, s.log ++ [Event.decodeFrame]⟩
      match Reading.from_pulses (E := E) pulses with
      | Except.error e => (Except.error ⟨e⟩, s)
      | Except.ok r => (Except.ok r, s)

/-- The six collaborator interactions of the host-driven part of the start
signal, in their source order (lib.rs:124-133). -/
def startPrefixLog (K : DhtKind) : List Event :=
  [Event.setHigh, Event.delayMs 1, Event.setLow, Event.delayUs K.START_DELAY_US,
   Event.setHigh, Event.delayUs 40]

/-- Driver state after the three successful pin writes and three delays of
the start signal, just before the acknowledgement pulse reads. -/
def startPrefixState (K : DhtKind) : DhtState :=
  ⟨3, startPrefixLog K⟩

/-! ### Helper lemmas -/

/-- Setting the low bit of an even number adds one. -/
theorem two_mul_lor_one (k : Nat) : 2 * k ||| 1 = 2 * k + 1 := by
  apply Nat.eq_of_testBit_eq
  intro i
  cases i with
  | zero =>
    simp [Nat.testBit_lor]
    omega
  | succ i =>
    have h1 : 2 * k / 2 = k := by omega
    have h2 : (2 * k + 1) / 2 = k := by omega
    rw [Nat.testBit_lor]
    simp [Nat.testBit_succ, h1, h2]

/-- Arithmetic form of the byte-assembly step. -/
theorem decodeByteStep_eq (b : Nat) (p : Pulse) :
    decodeByteStep b p = b * 2 % 256 + (if p.lo < p.hi then 1 else 0) := by
  have hmod : b * 2 % 256 = 2 * (b % 128) := by omega
  unfold decodeByteStep
  simp only [gt_iff_lt]
  split
  · rw [hmod, two_mul_lor_one]
  · simp

/-- The fuel argument of `chunksOfAux` is irrelevant once it covers the list
length. -/
theorem chunksOfAux_fuel {α : Type} (n : Nat) (hn : n ≠ 0) :
    ∀ f1 f2 (l : List α), l.length ≤ f1 → l.length ≤ f2 →
      chunksOfAux n f1 l = chunksOfAux n f2 l := by
  intro f1
  induction f1 with
  | zero =>
    intro f2 l h1 h2
    cases l with
    | nil => cases f2 <;> rfl
    | cons p rest => simp at h1
  | succ f ih =>
    intro f2 l h1 h2
    cases l with
    | nil => cases f2 <;> rfl
    | cons p rest =>
      cases f2 with
      | zero => simp at h2
      | succ f2 =>
        simp only [chunksOfAux]
        have hl1 : rest.length ≤ f := by simpa using h1
        have hl2 : rest.length ≤ f2 := by simpa using h2
        have hd : ((p :: rest).drop n).length = rest.length + 1 - n := by simp
        rw [ih f2 ((p :: rest).drop n) (by omega) (by omega)]

/-- Unfolding equation for `chunksOf` on a non-empty list. -/
theorem chunksOf_cons {α : Type} (n : Nat) (hn : n ≠ 0) (l : List α) (hl : l ≠ []) :
    chunksOf n l = l.take n :: chunksOf n (l.drop n) := by
  unfold chunksOf
  cases l with
  | nil => exact absurd rfl hl
  | cons p rest =>
    simp only [List.length_cons, chunksOfAux]
    have hd : ((p :: rest).drop n).length = rest.length + 1 - n := by simp
    rw [chunksOfAux_fuel n hn rest.length (((p :: rest).drop n).length)
      ((p :: rest).drop n) (by omega) (le_refl _)]

/-- A 40-element list splits into exactly five chunks of eight. -/
theorem chunksOf_forty {α : Type} (l : List α) (h : l.length = 40) :
    chunksOf 8 l = [l.take 8, (l.drop 8).take 8, (l.drop 16).take 8,
      (l.drop 24).take 8, (l.drop 32).take 8] := by
  have h8 : (8 : Nat) ≠ 0 := by omega
  have e1 : l ≠ [] := by intro he; rw [he] at h; simp at h
  rw [chunksOf_cons 8 h8 l e1]
  have l8 : (l.drop 8).length = 32 := by simp [h]
  have e2 : l.drop 8 ≠ [] := by intro he; rw [he] at l8; simp at l8
  rw [chunksOf_cons 8 h8 _ e2, List.drop_drop]
  norm_num
  have l16 : (l.drop 16).length = 24 := by simp [h]
  have e3 : l.drop 16 ≠ [] := by intro he; rw [he] at l16; simp at l16
  rw [chunksOf_cons 8 h8 _ e3, List.drop_drop]
  norm_num
  have l24 : (l.drop 24).length = 16 := by simp [h]
  have e4 : l.drop 24 ≠ [] := by intro he; rw [he] at l24; simp at l24
  rw [chunksOf_cons 8 h8 _ e4, List.drop_drop]
  norm_num
  have l32 : (l.drop 32).length = 8 := by simp [h]
  have e5 : l.drop 32 ≠ [] := by intro he; rw [he] at l32; simp at l32
  rw [chunksOf_cons 8 h8 _ e5, List.drop_drop]
  norm_num
  have l40 : (l.drop 40).length = 0 := by simp [h]
  have e6 : l.drop 40 = [] := List.eq_nil_of_length_eq_zero l40
  rw [e6]
  rfl

/-- The assembly loop over five chunks: the bytes are the decoded chunks, and
the accumulated checksum is the index sum 0+1+2+3 = 6. -/
theorem assembleBytes_five (c0 c1 c2 c3 c4 : List Pulse) :
    assembleBytes [c0, c1, c2, c3, c4] 0 [] 0 =
      ([decodeByte c0, decodeByte c1, decodeByte c2, decodeByte c3, decodeByte c4], 6) := by
  norm_num [assembleBytes]

/-- Master evaluation of the frame decoder on a 40-pulse frame: it fails with
`Checksum { expected := bytes[4], actual := 6 }` unless the transmitted byte
is 6, in which case it returns the four data bytes. -/
theorem from_pulses_eq {E : Type} (l : List Pulse) (h : l.length = 40) :
    Reading.from_pulses (E := E) l =
      if 6 ≠ byteOf l 4 then
        Except.error (ErrorKind.checksum (byteOf l 4) 6)
      else
        Except.ok ⟨byteOf l 0, byteOf l 1, byteOf l 2, byteOf l 3⟩ := by
  have hc := chunksOf_forty l h
  unfold Reading.from_pulses byteOf
  rw [hc, assembleBytes_five]
  norm_num

/-- Any list of length eight is a literal eight-element list. -/
theorem exists_len8 {α : Type} {l : List α} (h : l.length = 8) :
    ∃ a b c d e f g i, l = [a, b, c, d, e, f, g, i] := by
  rcases l with _ | ⟨a, _ | ⟨b, _ | ⟨c, _ | ⟨d, _ | ⟨e, _ | ⟨f, _ | ⟨g, _ | ⟨i, _ | ⟨j, t⟩⟩⟩⟩⟩⟩⟩⟩⟩ <;>
    simp_all

/-- The assembled byte of an eight-pulse chunk, most-significant bit first:
bit `7 - k` is set exactly when pulse `k` has `hi > lo`. -/
theorem decodeByte_eq_sum (c : List Pulse) (hc : c.length = 8) (d : Pulse) :
    decodeByte c = ∑ k in Finset.range 8,
      if (c.getD k d).lo < (c.getD k d).hi then 2 ^ (7 - k) else 0 := by
  obtain ⟨a, b, c0, c1, e, f, g, i, rfl⟩ := exists_len8 hc
  simp only [decodeByte, List.foldl, decodeByteStep_eq, Finset.sum_range_succ,
    Finset.sum_range_zero, List.getD_cons_zero, List.getD_cons_succ]
  split_ifs <;> decide

/-- Element access inside an eight-chunk. -/
theorem getD_take_drop {α : Type} (l : List α) (m k : Nat) (hk : k < 8) (d : α) :
    ((l.drop m).take 8).getD k d = l.getD (m + k) d := by
  simp [List.getD, List.getElem?_take, hk, List.getElem?_drop]

/-- The assembled byte of the chunk starting at offset `m`, as a sum over the
original pulse list. -/
theorem decodeByte_drop_take (l : List Pulse) (m : Nat) (hm : m + 8 ≤ l.length) (d : Pulse) :
    decodeByte ((l.drop m).take 8) = ∑ k in Finset.range 8,
      if (l.getD (m + k) d).lo < (l.getD (m + k) d).hi then 2 ^ (7 - k) else 0 := by
  have hlen : ((l.drop m).take 8).length = 8 := by
    simp
    omega
  rw [decodeByte_eq_sum _ hlen d]
  refine Finset.sum_congr rfl fun k hk => ?_
  rw [getD_take_drop l m k (Finset.mem_range.mp hk) d]

/-- Byte `j` of a 40-pulse frame as an MSB-first sum of bit decisions. -/
theorem byteOf_eq_sum (l : List Pulse) (h : l.length = 40) (j : Nat) (hj : j < 5) (d : Pulse) :
    byteOf l j = ∑ k in Finset.range 8,
      if (l.getD (8 * j + k) d).lo < (l.getD (8 * j + k) d).hi then 2 ^ (7 - k) else 0 := by
  have hc := chunksOf_forty l h
  unfold byteOf
  rw [hc]
  interval_cases j
  · simpa using decodeByte_drop_take l 0 (by omega) d
  · simpa using decodeByte_drop_take l 8 (by omega) d
  · simpa using decodeByte_drop_take l 16 (by omega) d
  · simpa using decodeByte_drop_take l 24 (by omega) d
  · simpa using decodeByte_drop_take l 32 (by omega) d

/-- The assembled bytes depend only on the per-pulse duration comparisons. -/
theorem byteOf_congr (l l' : List Pulse) (h : l.length = 40) (h' : l'.length = 40)
    (hcmp : ∀ i, i < 40 →
      ((l.getD i ⟨0, 0⟩).lo < (l.getD i ⟨0, 0⟩).hi ↔
        (l'.getD i ⟨0, 0⟩).lo < (l'.getD i ⟨0, 0⟩).hi))
    (j : Nat) (hj : j < 5) : byteOf l j = byteOf l' j := by
  rw [byteOf_eq_sum l h j hj ⟨0, 0⟩, byteOf_eq_sum l' h' j hj ⟨0, 0⟩]
  refine Finset.sum_congr rfl fun k hk => ?_
  have hk8 := Finset.mem_range.mp hk
  exact if_congr (hcmp (8 * j + k) (by omega)) rfl rfl

/-! ### Claims -/

/-- C1: the claim states the datasheet round-trip contract: decoding succeeds
exactly when the transmitted 5th byte equals the low byte of the sum of the
four data bytes.  The code violates it: on `c1Pulses` the data bytes are
0,0,0,0 (datasheet checksum 0) and the transmitted byte is 6, so the claim
demands a checksum failure, yet `from_pulses` accepts the frame and returns
the reading — the code compares against the chunk-index sum 6 instead of the
byte sum, contradicting its own comment (lib.rs:174-175). -/
theorem c1_checksum_roundtrip_code_bug :
    specChecksum c1Pulses = 0 ∧
    byteOf c1Pulses 4 = 6 ∧
    specChecksum c1Pulses ≠ byteOf c1Pulses 4 ∧
    Reading.from_pulses (E := Unit) c1Pulses = Except.ok ⟨0, 0, 0, 0⟩ :=
  ⟨by decide, by decide, by decide, by rfl⟩

/-- C2: for every 40-pulse frame, the decoder succeeds if and only if the 5th
assembled byte equals 6 (the chunk-index sum 0+1+2+3), independent of the
four data bytes, and every checksum failure reports the computed checksum 6. -/
theorem c2_checksum_always_six {E : Type} (l : List Pulse) (h : l.length = 40) :
    ((∃ r, Reading.from_pulses (E := E) l = Except.ok r) ↔ byteOf l 4 = 6) ∧
    (∀ expected actual,
      Reading.from_pulses (E := E) l = Except.error (ErrorKind.checksum expected actual) →
      actual = 6) := by
  constructor
  · by_cases hb : byteOf l 4 = 6
    · simp [from_pulses_eq l h, hb]
    · have hb' : (6 : Nat) ≠ byteOf l 4 := fun hh => hb hh.symm
      simp [from_pulses_eq l h, hb', hb]
  · intro expected actual hfp
    rw [from_pulses_eq l h] at hfp
    split at hfp
    · simp only [Except.error.injEq, ErrorKind.checksum.injEq] at hfp
      omega
    · simp at hfp

/-- Witness for C2 at the all-zero frame: every pulse has `hi ≤ lo`, so byte
4 is 0 ≠ 6 and the decoder cannot succeed. -/
theorem c2_checksum_always_six_witness :
    ¬ ∃ r, Reading.from_pulses (E := Unit) (List.replicate 40 (Pulse.mk 1 0)) = Except.ok r :=
  fun hex =>
    absurd ((c2_checksum_always_six (E := Unit) (List.replicate 40 (Pulse.mk 1 0))
      (by simp)).1.mp hex) (by decide)

/-- C4: each of the 5 bytes is assembled from its 8 consecutive pulses
MSB-first, the bit being 1 exactly when the pulse's high duration strictly
exceeds its low duration, and the assembled bytes depend only on these
per-pulse comparisons. -/
theorem c4_bit_decision (l : List Pulse) (h : l.length = 40) :
    (∀ j, j < 5 → byteOf l j = ∑ k in Finset.range 8,
      if (l.getD (8 * j + k) ⟨0, 0⟩).lo < (l.getD (8 * j + k) ⟨0, 0⟩).hi
      then 2 ^ (7 - k) else 0) ∧
    (∀ l' : List Pulse, l'.length = 40 →
      (∀ i, i < 40 →
        ((l.getD i ⟨0, 0⟩).lo < (l.getD i ⟨0, 0⟩).hi ↔
          (l'.getD i ⟨0, 0⟩).lo < (l'.getD i ⟨0, 0⟩).hi)) →
      ∀ j, j < 5 → byteOf l j = byteOf l' j) :=
  ⟨fun j hj => byteOf_eq_sum l h j hj ⟨0, 0⟩,
   fun l' h' hcmp j hj => byteOf_congr l l' h h' hcmp j hj⟩

/-- Witness for C4 at the all-zero frame and byte 0. -/
theorem c4_bit_decision_witness :
    byteOf (List.replicate 40 (Pulse.mk 1 0)) 0 = ∑ k in Finset.range 8,
      if ((List.replicate 40 (Pulse.mk 1 0)).getD (8 * 0 + k) ⟨0, 0⟩).lo <
          ((List.replicate 40 (Pulse.mk 1 0)).getD (8 * 0 + k) ⟨0, 0⟩).hi
      then 2 ^ (7 - k) else 0 :=
  (c4_bit_decision (List.replicate 40 (Pulse.mk 1 0)) (by simp)).1 0 (by omega)

/-- C5 counterexample: on `c5Pulses` (data bytes 1,0,0,0; transmitted byte 0)
the decoder fails with `expected = 0` and `actual = 6`, but the claim demands
that the `expected` field carry the computed byte-sum checksum (which is 1)
and the `actual` field carry the transmitted byte (which is 0).  Both fields
differ, so the claim as stated is false. -/
theorem c5_checksum_payload_counterexample :
    Reading.from_pulses (E := Unit) c5Pulses = Except.error (ErrorKind.checksum 0 6) ∧
    ¬(0 = specChecksum c5Pulses ∧ 6 = byteOf c5Pulses 4) :=
  ⟨by rfl, by decide⟩

/-- C5 amended: whenever decoding fails with a Checksum error, the error's
`expected` field equals the transmitted 5th byte and its `actual` field
equals the computed checksum, which is always 6 (the chunk-index sum). -/
theorem c5_checksum_payload_amended {E : Type} (l : List Pulse) (h : l.length = 40)
    (expected actual : Nat)
    (he : Reading.from_pulses (E := E) l = Except.error (ErrorKind.checksum expected actual)) :
    expected = byteOf l 4 ∧ actual = 6 := by
  rw [from_pulses_eq l h] at he
  split at he
  · simp only [Except.error.injEq, ErrorKind.checksum.injEq] at he
    omega
  · simp at he

/-- Witness for the amended C5 at `c5Pulses`. -/
theorem c5_checksum_payload_amended_witness :
    (0 : Nat) = byteOf c5Pulses 4 ∧ (6 : Nat) = 6 :=
  c5_checksum_payload_amended (E := Unit) c5Pulses (by decide) 0 6 (by rfl)

/-- C8: the DHT11 (low-resolution) conversions: humidity is
integral + decimal × 0.1; temperature is the integral part (replaced by
-1 - integral when the decimal's 0x80 bit is set) plus the decimal's low
nibble × 0.1; in particular humidity(45,0) = 45 and temp(26,0x85) = -26.5. -/
theorem c8_dht11_conversions (integral decimal : Nat) :
    Dht11.humidity_percent integral decimal = (integral : ℚ) + (decimal : ℚ) * (1 / 10) ∧
    Dht11.temp_celcius integral decimal =
      (if decimal &&& 0x80 ≠ 0 then -1 - (integral : ℚ) else (integral : ℚ)) +
        ((decimal &&& 0x0f : Nat) : ℚ) * (1 / 10) ∧
    Dht11.humidity_percent 45 0 = 45 ∧
    Dht11.temp_celcius 26 0x85 = -26.5 := by
  refine ⟨?_, ?_, ?_, ?_⟩
  · norm_num [Dht11]
  · simp only [Dht11]
    split_ifs <;> norm_num
  · norm_num [Dht11]
  · simp only [Dht11]
    rw [show (0x85 &&& 0x80 : Nat) = 128 from by decide,
      show (0x85 &&& 0x0f : Nat) = 5 from by decide]
    norm_num

/-- C9: the DHT22 (high-resolution) temperature: the 15-bit magnitude
`(integral &&& 0x7F) <<< 8 ||| decimal` scaled by 0.1, negated exactly when
the integral byte's 0x80 bit is set; in particular temp(0x01,0x90) = 40 and
temp(0x81,0x90) = -40. -/
theorem c9_dht22_temp (integral decimal : Nat) :
    Dht22.temp_celcius integral decimal =
      (if integral &&& 0x80 ≠ 0 then (-1 : ℚ) else 1) *
        ((((integral &&& 0x7f) <<< 8) ||| decimal : Nat) : ℚ) * (1 / 10) ∧
    Dht22.temp_celcius 0x01 0x90 = 40 ∧
    Dht22.temp_celcius 0x81 0x90 = -40 := by
  refine ⟨?_, ?_, ?_⟩
  · simp only [Dht22]
    split_ifs <;> ring
  · simp only [Dht22]
    rw [show (((0x01 &&& 0x7f) <<< 8) ||| 0x90 : Nat) = 400 from by decide,
      show (0x01 &&& 0x80 : Nat) = 0 from by decide]
    norm_num
  · simp only [Dht22]
    rw [show (((0x81 &&& 0x7f) <<< 8) ||| 0x90 : Nat) = 400 from by decide,
      show (0x81 &&& 0x80 : Nat) = 128 from by decide]
    norm_num

/-- C10: Fahrenheit is Celsius × 1.8 + 32 for every reading and variant, and
the conversion is exact at the reference points 0 °C ↦ 32 °F and
100 °C ↦ 212 °F. -/
theorem c10_fahrenheit_conversion (K : DhtKind) (r : Reading) :
    Reading.temp_fahrenheit K r = Reading.temp_celcius K r * 1.8 + 32 ∧
    celcius_to_fahrenheit 0 = 32 ∧
    celcius_to_fahrenheit 100 = 212 := by
  refine ⟨?_, ?_, ?_⟩
  · norm_num [Reading.temp_fahrenheit, celcius_to_fahrenheit]
  · norm_num [celcius_to_fahrenheit]
  · norm_num [celcius_to_fahrenheit]

/-! ### Pulse sampler characterization -/

/-- On an error-free pin trace, the sampler returns `len + k` when the pin
first differs from the `high` argument at poll `k`. -/
theorem readPulseAux_ok {E : Type} (pin : Nat → Bool) (lvl : Bool) :
    ∀ fuel k len s, k < fuel → (∀ j, j < k → pin (s.idx + j) = lvl) →
      pin (s.idx + k) ≠ lvl →
      (readPulseAux (fun n => (Except.ok (pin n) : Except E Bool)) lvl fuel len s).1 =
        Except.ok (len + k) := by
  intro fuel
  induction fuel with
  | zero => intro k len s hk _ _; exact absurd hk (Nat.not_lt_zero k)
  | succ fuel ih =>
    intro k len s hk hall hend
    cases k with
    | zero =>
      have h0 : pin s.idx ≠ lvl := by simpa using hend
      simp [readPulseAux, pinRead, h0]
    | succ k =>
      have h0 : pin s.idx = lvl := by simpa using hall 0 (by omega)
      have hstep : ¬ (pin s.idx ≠ lvl) := by simp [h0]
      simp only [readPulseAux, pinRead]
      rw [if_neg hstep]
      have hshift : ∀ j, j < k →
          pin ((tickUs 1 ⟨s.idx + 1, s.log ++ [Event.readLevel (pin s.idx)]⟩).idx + j) = lvl := by
        intro j hj
        have := hall (j + 1) (by omega)
        rw [show s.idx + (j + 1) = s.idx + 1 + j by omega] at this
        simpa [tickUs] using this
      have hend' :
          pin ((tickUs 1 ⟨s.idx + 1, s.log ++ [Event.readLevel (pin s.idx)]⟩).idx + k) ≠ lvl := by
        rw [show s.idx + (k + 1) = s.idx + 1 + k by omega] at hend
        simpa [tickUs] using hend
      have := ih k (len + 1) (tickUs 1 ⟨s.idx + 1, s.log ++ [Event.readLevel (pin s.idx)]⟩)
        (by omega) hshift hend'
      rw [show len + (k + 1) = len + 1 + k by omega]
      exact this

/-- On an error-free pin trace that stays at the `high` argument level for
the whole fuel budget, the sampler times out. -/
theorem readPulseAux_timeout {E : Type} (pin : Nat → Bool) (lvl : Bool) :
    ∀ fuel len s, (∀ j, j < fuel → pin (s.idx + j) = lvl) →
      (readPulseAux (fun n => (Except.ok (pin n) : Except E Bool)) lvl fuel len s).1 =
        Except.error ErrorKind.timeout := by
  intro fuel
  induction fuel with
  | zero => intro len s _; rfl
  | succ fuel ih =>
    intro len s hall
    have h0 : pin s.idx = lvl := by simpa using hall 0 (by omega)
    have hstep : ¬ (pin s.idx ≠ lvl) := by simp [h0]
    simp only [readPulseAux, pinRead]
    rw [if_neg hstep]
    apply ih
    intro j hj
    have := hall (j + 1) (by omega)
    rw [show s.idx + (j + 1) = s.idx + 1 + j by omega] at this
    simpa [tickUs] using this

/-- The sampler only appends pin reads and 1 µs delays to the log. -/
theorem readPulseAux_log {E : Type} (env : Nat → Except E Bool) (lvl : Bool) :
    ∀ fuel len s, ∃ t, ((readPulseAux env lvl fuel len s).2).log = s.log ++ t ∧
      ∀ ev ∈ t, ev = Event.readLevel true ∨ ev = Event.readLevel false ∨
        ev = Event.readFail ∨ ev = Event.delayUs 1 := by
  intro fuel
  induction fuel with
  | zero =>
    intro len s
    exact ⟨[], by simp [readPulseAux], by simp⟩
  | succ fuel ih =>
    intro len s
    rcases henv : env s.idx with e | b
    · refine ⟨[Event.readFail], ?_, ?_⟩
      · simp [readPulseAux, pinRead, henv]
      · simp
    · by_cases hb : b ≠ lvl
      · refine ⟨[Event.readLevel b], ?_, ?_⟩
        · simp [readPulseAux, pinRead, henv, hb]
        · intro ev hev
          rcases List.mem_singleton.mp hev with rfl
          cases b
          · right; left; rfl
          · left; rfl
      · obtain ⟨t, ht, hall⟩ := ih (len + 1) (tickUs 1 ⟨s.idx + 1, s.log ++ [Event.readLevel b]⟩)
        refine ⟨[Event.readLevel b, Event.delayUs 1] ++ t, ?_, ?_⟩
        · simp only [readPulseAux, pinRead, henv]
          rw [if_neg hb]
          rw [ht]
          simp [tickUs]
        · intro ev hev
          rcases List.mem_append.mp hev with h | h
          · rcases List.mem_cons.mp h with rfl | h
            · cases b
              · right; left; rfl
              · left; rfl
            · rcases List.mem_singleton.mp h with rfl
              right; right; right; rfl
          · exact hall ev h

/-- The sampler never logs the decoder-invocation marker. -/
theorem readPulse_decode {E : Type} (env : Nat → Except E Bool) (lvl : Bool) (s : DhtState)
    (h : Event.decodeFrame ∈ ((read_pulse_us env lvl s).2).log) : Event.decodeFrame ∈ s.log := by
  obtain ⟨t, ht, hall⟩ := readPulseAux_log env lvl 256 0 s
  unfold read_pulse_us at h
  rw [ht] at h
  rcases List.mem_append.mp h with h | h
  · exact h
  · rcases hall _ h with h' | h' | h' | h' <;> simp at h'

/-- A pin-high write appends only its own marker to the log. -/
theorem pinSetHigh_decode {E : Type} (env : Nat → Except E Bool) (s : DhtState)
    (h : Event.decodeFrame ∈ ((pinSetHigh env s).2).log) : Event.decodeFrame ∈ s.log := by
  unfold pinSetHigh at h
  rcases henv : env s.idx with e | b <;> rw [henv] at h <;> simpa using h

/-- A pin-low write appends only its own marker to the log. -/
theorem pinSetLow_decode {E : Type} (env : Nat → Except E Bool) (s : DhtState)
    (h : Event.decodeFrame ∈ ((pinSetLow env s).2).log) : Event.decodeFrame ∈ s.log := by
  unfold pinSetLow at h
  rcases henv : env s.idx with e | b <;> rw [henv] at h <;> simpa using h

/-- A µs delay appends only its own marker to the log. -/
theorem tickUs_decode (n : Nat) (s : DhtState)
    (h : Event.decodeFrame ∈ (tickUs n s).log) : Event.decodeFrame ∈ s.log := by
  simpa [tickUs] using h

/-- A ms delay appends only its own marker to the log. -/
theorem tickMs_decode (n : Nat) (s : DhtState)
    (h : Event.decodeFrame ∈ (tickMs n s).log) : Event.decodeFrame ∈ s.log := by
  simpa [tickMs] using h

/-- The start signal never logs the decoder-invocation marker, whatever its
outcome. -/
theorem start_signal_decode {E : Type} (K : DhtKind) (env : Nat → Except E Bool) (s : DhtState)
    (h : Event.decodeFrame ∈ ((start_signal_blocking K env s).2).log) :
    Event.decodeFrame ∈ s.log := by
  unfold start_signal_blocking at h
  rcases h1 : pinSetHigh env s with ⟨r1, s1⟩
  rw [h1] at h
  have key1 : Event.decodeFrame ∈ s1.log → Event.decodeFrame ∈ s.log := fun hm =>
    pinSetHigh_decode env s (by rw [h1]; exact hm)
  cases r1 with
  | error e => exact key1 (by simpa [andThen] using h)
  | ok u =>
    simp only [andThen] at h
    rcases h2 : pinSetLow env (tickMs 1 s1) with ⟨r2, s2⟩
    rw [h2] at h
    have key2 : Event.decodeFrame ∈ s2.log → Event.decodeFrame ∈ s.log := fun hm =>
      key1 (tickMs_decode 1 s1 (pinSetLow_decode env (tickMs 1 s1) (by rw [h2]; exact hm)))
    cases r2 with
    | error e => exact key2 (by simpa [andThen] using h)
    | ok u2 =>
      simp only [andThen] at h
      rcases h3 : pinSetHigh env (tickUs K.START_DELAY_US s2) with ⟨r3, s3⟩
      rw [h3] at h
      have key3 : Event.decodeFrame ∈ s3.log → Event.decodeFrame ∈ s.log := fun hm =>
        key2 (tickUs_decode K.START_DELAY_US s2
          (pinSetHigh_decode env (tickUs K.START_DELAY_US s2) (by rw [h3]; exact hm)))
      cases r3 with
      | error e => exact key3 (by simpa [andThen] using h)
      | ok u3 =>
        simp only [andThen] at h
        rcases h4 : read_pulse_us env false (tickUs 40 s3) with ⟨r4, s4⟩
        rw [h4] at h
        have key4 : Event.decodeFrame ∈ s4.log → Event.decodeFrame ∈ s.log := fun hm =>
          key3 (tickUs_decode 40 s3 (readPulse_decode env false (tickUs 40 s3)
            (by rw [h4]; exact hm)))
        cases r4 with
        | error e => exact key4 (by simpa [andThen] using h)
        | ok k4 =>
          simp only [andThen] at h
          rcases h5 : read_pulse_us env true s4 with ⟨r5, s5⟩
          rw [h5] at h
          have key5 : Event.decodeFrame ∈ s5.log → Event.decodeFrame ∈ s.log := fun hm =>
            key4 (readPulse_decode env true s4 (by rw [h5]; exact hm))
          cases r5 with
          | error e => exact key5 (by simpa [andThen] using h)
          | ok k5 => exact key5 (by simpa [andThen] using h)

/-- With the first three pin accesses successful, the start signal reduces to
the two acknowledgement sampler calls run from the prefix state. -/
theorem start_signal_reduce {E : Type} (K : DhtKind) (env : Nat → Except E Bool)
    (h0 : ∃ b, env 0 = Except.ok b) (h1 : ∃ b, env 1 = Except.ok b)
    (h2 : ∃ b, env 2 = Except.ok b) :
    start_signal_blocking K env initState =
      andThen (read_pulse_us env false (startPrefixState K)) fun _ s =>
      andThen (read_pulse_us env true s) fun _ s =>
      (Except.ok (), s) := by
  obtain ⟨b0, h0⟩ := h0
  obtain ⟨b1, h1⟩ := h1
  obtain ⟨b2, h2⟩ := h2
  simp [start_signal_blocking, pinSetHigh, pinSetLow, tickMs, tickUs, initState,
    startPrefixState, startPrefixLog, h0, h1, h2, andThen]

/-- C3 counterexample: take the pin trace that is constantly at level `true`
and call the sampler with expected level `true`.  The pin is already at the
expected level at tick 0, so the claimed contract ("returns the tick count
the instant the pin reaches level L") demands `Except.ok 0`; the code instead
counts while the pin *is at* the argument level and times out. -/
theorem c3_pulse_sampler_counterexample :
    (fun (_ : Nat) => true) 0 = true ∧
    (read_pulse_us (fun _ => (Except.ok true : Except Unit Bool)) true initState).1 =
      Except.error ErrorKind.timeout :=
  ⟨rfl, by rfl⟩

/-- C3 amended: the Bool argument of `read_pulse_us` names the level the pin
currently holds (the level whose duration is measured), not the level being
waited for: the sampler counts ticks while the pin is still at the argument
level and returns the count `k` (0 ≤ k ≤ 255) the instant the pin reaches
the complement level; if the pin stays at the argument level for the whole
256-poll budget, it fails with Timeout and with no other error kind. -/
theorem c3_pulse_sampler_amended {E : Type} (pin : Nat → Bool) (lvl : Bool) :
    (∀ k, k ≤ 255 → (∀ j, j < k → pin j = lvl) → pin k ≠ lvl →
      (read_pulse_us (fun n => (Except.ok (pin n) : Except E Bool)) lvl initState).1 =
        Except.ok k) ∧
    ((∀ k, k ≤ 255 → pin k = lvl) →
      (read_pulse_us (fun n => (Except.ok (pin n) : Except E Bool)) lvl initState).1 =
        Except.error ErrorKind.timeout) := by
  constructor
  · intro k hk hall hend
    have := readPulseAux_ok (E := E) pin lvl 256 k 0 initState (by omega)
      (by intro j hj; simpa [initState] using hall j hj) (by simpa [initState] using hend)
    simpa [read_pulse_us] using this
  · intro hall
    have := readPulseAux_timeout (E := E) pin lvl 256 0 initState
      (by intro j hj; simpa [initState] using hall j (by omega))
    simpa [read_pulse_us] using this

/-- Witness for the amended C3: the pin holds level `false` for one tick and
then goes high, so sampling the `false` level returns 1. -/
theorem c3_pulse_sampler_amended_witness :
    (read_pulse_us (fun n => (Except.ok (n != 0) : Except Unit Bool)) false initState).1 =
      Except.ok 1 :=
  (c3_pulse_sampler_amended (E := Unit) (fun n => n != 0) false).1 1 (by omega)
    (by decide) (by decide)

/-- C6: if any pin operation during the start signal fails with an IO error,
`read_blocking` returns exactly that IO error (classified as IO, not Timeout
or Checksum), performs nothing further, and the frame decoder is never
invoked (no `decodeFrame` marker is ever logged). -/
theorem c6_io_error_skips_decoder {E : Type} (K : DhtKind) (env : Nat → Except E Bool) (e : E)
    (s' : DhtState)
    (h : start_signal_blocking K env initState = (Except.error (ErrorKind.ioError e), s')) :
    read_blocking K env initState = (Except.error ⟨ErrorKind.ioError e⟩, s') ∧
    DhtError.isIoError (⟨ErrorKind.ioError e⟩ : DhtError E) = true ∧
    DhtError.isTimeoutError (⟨ErrorKind.ioError e⟩ : DhtError E) = false ∧
    DhtError.isChecksumError (⟨ErrorKind.ioError e⟩ : DhtError E) = false ∧
    Event.decodeFrame ∉ s'.log := by
  refine ⟨?_, rfl, rfl, rfl, ?_⟩
  · unfold read_blocking
    rw [h]
  · intro hmem
    have := start_signal_decode K env initState (by rw [h]; exact hmem)
    simp [initState] at this

/-- Witness for C6: the environment whose every pin access fails. -/
theorem c6_io_error_skips_decoder_witness :
    read_blocking Dht11 (fun _ => (Except.error () : Except Unit Bool)) initState =
      (Except.error ⟨ErrorKind.ioError ()⟩, ⟨1, [Event.setHigh]⟩) ∧
    DhtError.isIoError (⟨ErrorKind.ioError ()⟩ : DhtError Unit) = true ∧
    DhtError.isTimeoutError (⟨ErrorKind.ioError ()⟩ : DhtError Unit) = false ∧
    DhtError.isChecksumError (⟨ErrorKind.ioError ()⟩ : DhtError Unit) = false ∧
    Event.decodeFrame ∉ (DhtState.mk 1 [Event.setHigh]).log :=
  c6_io_error_skips_decoder Dht11 (fun _ => (Except.error () : Except Unit Bool)) ()
    ⟨1, [Event.setHigh]⟩ (by rfl)

/-- C7: every successful run of the start signal performs, in order: pin high
then a 1 ms delay, pin low then a `START_DELAY_US` µs delay for the active
variant, pin high then a 40 µs delay, then exactly two sampler calls (first
consuming the level-low acknowledgement, then the level-high one); these are
the only pin writes.  Moreover, once the three writes succeed, a sampler
timeout in either acknowledgement step surfaces as the start signal's own
Timeout error. -/
theorem c7_start_signal_order {E : Type} (K : DhtKind) (env : Nat → Except E Bool) :
    (∀ s', start_signal_blocking K env initState = (Except.ok (), s') →
      ∃ k4 s4 k5,
        read_pulse_us env false (startPrefixState K) = (Except.ok k4, s4) ∧
        read_pulse_us env true s4 = (Except.ok k5, s') ∧
        (∃ t4 t5, s4.log = startPrefixLog K ++ t4 ∧
          s'.log = startPrefixLog K ++ t4 ++ t5 ∧
          (∀ ev ∈ t4, isPinWrite ev = false) ∧ (∀ ev ∈ t5, isPinWrite ev = false)) ∧
        s'.log.filter isPinWrite = [Event.setHigh, Event.setLow, Event.setHigh] ∧
        s'.log.take 6 = startPrefixLog K) ∧
    ((∃ b, env 0 = Except.ok b) → (∃ b, env 1 = Except.ok b) → (∃ b, env 2 = Except.ok b) →
      (∀ s4, read_pulse_us env false (startPrefixState K) =
          (Except.error ErrorKind.timeout, s4) →
        start_signal_blocking K env initState = (Except.error ErrorKind.timeout, s4)) ∧
      (∀ k4 s4 s5, read_pulse_us env false (startPrefixState K) = (Except.ok k4, s4) →
        read_pulse_us env true s4 = (Except.error ErrorKind.timeout, s5) →
        start_signal_blocking K env initState = (Except.error ErrorKind.timeout, s5))) := by
  constructor
  · intro s' h
    rcases henv0 : env 0 with e0 | b0
    · have : (start_signal_blocking K env initState).1 = Except.error (ErrorKind.ioError e0) := by
        simp [start_signal_blocking, pinSetHigh, initState, henv0, andThen]
      rw [h] at this
      simp at this
    rcases henv1 : env 1 with e1 | b1
    · have : (start_signal_blocking K env initState).1 = Except.error (ErrorKind.ioError e1) := by
        simp [start_signal_blocking, pinSetHigh, pinSetLow, tickMs, tickUs, initState,
          henv0, henv1, andThen]
      rw [h] at this
      simp at this
    rcases henv2 : env 2 with e2 | b2
    · have : (start_signal_blocking K env initState).1 = Except.error (ErrorKind.ioError e2) := by
        simp [start_signal_blocking, pinSetHigh, pinSetLow, tickMs, tickUs, initState,
          henv0, henv1, henv2, andThen]
      rw [h] at this
      simp at this
    rw [start_signal_reduce K env ⟨b0, henv0⟩ ⟨b1, henv1⟩ ⟨b2, henv2⟩] at h
    rcases h4 : read_pulse_us env false (startPrefixState K) with ⟨r4, s4⟩
    rw [h4] at h
    cases r4 with
    | error e => simp [andThen] at h
    | ok k4 =>
      simp only [andThen] at h
      rcases h5 : read_pulse_us env true s4 with ⟨r5, s5⟩
      rw [h5] at h
      cases r5 with
      | error e => simp [andThen] at h
      | ok k5 =>
        simp only [andThen, Prod.mk.injEq] at h
        obtain ⟨-, rfl⟩ := h
        obtain ⟨t4, ht4, hall4⟩ := readPulseAux_log env false 256 0 (startPrefixState K)
        obtain ⟨t5, ht5, hall5⟩ := readPulseAux_log env true 256 0 s4
        rw [show (readPulseAux env false 256 0 (startPrefixState K)).2 = s4 from by
          rw [show readPulseAux env false 256 0 (startPrefixState K) =
            read_pulse_us env false (startPrefixState K) from rfl, h4]] at ht4
        rw [show (readPulseAux env true 256 0 s4).2 = s5 from by
          rw [show readPulseAux env true 256 0 s4 = read_pulse_us env true s4 from rfl, h5]] at ht5
        have hpre : (startPrefixState K).log = startPrefixLog K := rfl
        rw [hpre] at ht4
        have hw4 : ∀ ev ∈ t4, isPinWrite ev = false := by
          intro ev hev
          rcases hall4 ev hev with rfl | rfl | rfl | rfl <;> rfl
        have hw5 : ∀ ev ∈ t5, isPinWrite ev = false := by
          intro ev hev
          rcases hall5 ev hev with rfl | rfl | rfl | rfl <;> rfl
        have hlog5 : s5.log = startPrefixLog K ++ t4 ++ t5 := by rw [ht5, ht4]
        refine ⟨k4, s4, k5, rfl, h5, ⟨t4, t5, ht4, hlog5, hw4, hw5⟩, ?_, ?_⟩
        · have hf4 : t4.filter isPinWrite = [] :=
            List.filter_eq_nil_iff.mpr (fun ev hev => by simp [hw4 ev hev])
          have hf5 : t5.filter isPinWrite = [] :=
            List.filter_eq_nil_iff.mpr (fun ev hev => by simp [hw5 ev hev])
          rw [hlog5, List.filter_append, List.filter_append, hf4, hf5]
          simp [startPrefixLog, isPinWrite]
        · rw [hlog5, List.append_assoc]
          rw [show (6 : Nat) = (startPrefixLog K).length from rfl]
          exact List.take_left (startPrefixLog K) (t4 ++ t5)
  · intro h0 h1 h2
    have hred := start_signal_reduce K env h0 h1 h2
    constructor
    · intro s4 h4
      rw [hred, h4]
      rfl
    · intro k4 s4 s5 h4 h5
      rw [hred, h4]
      simp only [andThen]
      rw [h5]

/-- Witness for C7: a successful handshake in which the sensor acknowledges
immediately (the pin reads high at access 3 and low at access 4). -/
theorem c7_start_signal_order_witness :
    ∃ k4 s4 k5,
      read_pulse_us (fun n => (Except.ok (n == 3) : Except Unit Bool)) false
          (startPrefixState Dht22) = (Except.ok k4, s4) ∧
      read_pulse_us (fun n => (Except.ok (n == 3) : Except Unit Bool)) true s4 =
        (Except.ok k5, (⟨5, [Event.setHigh, Event.delayMs 1, Event.setLow,
          Event.delayUs 1100, Event.setHigh, Event.delayUs 40, Event.readLevel true,
          Event.readLevel false]⟩ : DhtState)) ∧
      (∃ t4 t5, s4.log = startPrefixLog Dht22 ++ t4 ∧
        (⟨5, [Event.setHigh, Event.delayMs 1, Event.setLow, Event.delayUs 1100,
          Event.setHigh, Event.delayUs 40, Event.readLevel true,
          Event.readLevel false]⟩ : DhtState).log = startPrefixLog Dht22 ++ t4 ++ t5 ∧
        (∀ ev ∈ t4, isPinWrite ev = false) ∧ (∀ ev ∈ t5, isPinWrite ev = false)) ∧
      (⟨5, [Event.setHigh, Event.delayMs 1, Event.setLow, Event.delayUs 1100,
        Event.setHigh, Event.delayUs 40, Event.readLevel true,
        Event.readLevel false]⟩ : DhtState).log.filter isPinWrite =
          [Event.setHigh, Event.setLow, Event.setHigh] ∧
      (⟨5, [Event.setHigh, Event.delayMs 1, Event.setLow, Event.delayUs 1100,
        Event.setHigh, Event.delayUs 40, Event.readLevel true,
        Event.readLevel false]⟩ : DhtState).log.take 6 = startPrefixLog Dht22 :=
  (c7_start_signal_order Dht22 (fun n => (Except.ok (n == 3) : Except Unit Bool))).1
    ⟨5, [Event.setHigh, Event.delayMs 1, Event.setLow, Event.delayUs 1100, Event.setHigh,
      Event.delayUs 40, Event.readLevel true, Event.readLevel false]⟩ (by rfl)
